import Mathlib

/-!
Verification of the NetPolicy core: rule model, decision engine, operational
state machine, port/SNI/comparator matchers, and the proxy-link codec.
Rust strings are modelled as lists of characters (`Str`); `u16`/`u32` values as
`Nat` with explicit bounds where they matter; fallible code returns
`Option`/`Except`.  Each definition mirrors the corresponding function in the
repository's `src/core` modules.
-/

namespace NetPolicy

/-! ## String model and helpers -/

/-- Rust `String`/`&str` modelled as a list of characters. -/
abbrev Str := List Char

/-- Embed a Lean string literal as a `Str`. -/
def strOf (s : String) : Str := s.data

/-- ASCII lowercasing of one character, mirroring `char::to_lowercase`
on the ASCII range (all inputs the engine compares are ASCII). -/
def lowerChar (c : Char) : Char := c.toLower

/-- ASCII uppercasing of one character, mirroring `char::to_uppercase`
on the ASCII range. -/
def upperChar (c : Char) : Char := c.toUpper

/-- Rust `str::to_lowercase` on ASCII data. -/
def strLower (s : Str) : Str := s.map lowerChar

/-- Rust `str::to_uppercase` on ASCII data. -/
def strUpper (s : Str) : Str := s.map upperChar

/-- Rust `char::is_whitespace` restricted to the ASCII range. -/
def isWs (c : Char) : Bool := c.isWhitespace

/-- Rust `str::trim`: drop whitespace from both ends. -/
def trimStr (s : Str) : Str :=
  ((s.dropWhile isWs).reverse.dropWhile isWs).reverse

/-- `p` is a prefix of `s` (Rust `str::starts_with`). -/
def isPre : Str → Str → Bool
  | [], _ => true
  | _ :: _, [] => false
  | a :: as, b :: bs => a = b && isPre as bs

/-- `p` is a suffix of `s` (Rust `str::ends_with`). -/
def isSuf (p s : Str) : Bool := isPre p.reverse s.reverse

/-- Rust `str::strip_prefix`: the remainder of `s` after `p`, when `p` leads `s`. -/
def dropPre? : Str → Str → Option Str
  | [], s => some s
  | _ :: _, [] => none
  | a :: as, b :: bs => if a = b then dropPre? as bs else none

/-- Rust `str::strip_suffix`. -/
def dropSuf? (p s : Str) : Option Str :=
  match dropPre? p.reverse s.reverse with
  | some r => some r.reverse
  | none => none

/-- Rust `str::split_once c`: parts around the first occurrence of `c`. -/
def splitOnce (c : Char) : Str → Option (Str × Str)
  | [] => none
  | x :: xs =>
    if x = c then some ([], xs)
    else
      match splitOnce c xs with
      | some (a, b) => some (x :: a, b)
      | none => none

/-- Rust `str::split c` collected into a list; `""` yields `[""]` and
adjacent separators yield empty pieces, as in Rust. -/
def splitSep (c : Char) : Str → List Str
  | [] => [[]]
  | x :: xs =>
    if x = c then [] :: splitSep c xs
    else
      match splitSep c xs with
      | [] => [[x]]
      | piece :: rest => (x :: piece) :: rest

/-- Numeric value of an ASCII digit. -/
def digitVal (c : Char) : Nat := c.toNat - 48

/-- Accumulating decimal parse of a digit string (Rust integer `from_str`
after the optional sign); `none` on empty input or a non-digit. -/
def parseDigits : Str → Option Nat
  | [] => none
  | s => if s.all Char.isDigit then some (s.foldl (fun a c => a * 10 + digitVal c) 0) else none

/-- Rust `str::parse::<uN>()`: optional leading `+`, then decimal digits,
rejecting values above `bound` (overflow). -/
def parseUInt (bound : Nat) (s : Str) : Option Nat :=
  let core := match s with
    | c :: rest => if c = '+' then parseDigits rest else parseDigits (c :: rest)
    | [] => none
  match core with
  | some v => if v ≤ bound then some v else none
  | none => none

/-- `str::parse::<u16>()`. -/
def parseU16 (s : Str) : Option Nat := parseUInt 65535 s

/-- `str::parse::<u32>()`. -/
def parseU32 (s : Str) : Option Nat := parseUInt 4294967295 s

/-- Decimal rendering of a natural number (Rust's `{}` formatting). -/
def natStr (n : Nat) : Str := (Nat.repr n).data

/-! ## Rule model (`src/core/rules.rs`) -/

/-- `StateSelector`: a single state name or a list of names. -/
inductive StateSelector where
  | Single (s : Str)
  | Many (l : List Str)
deriving DecidableEq

/-- `RuleWhen`. -/
structure RuleWhen where
  state : Option StateSelector
deriving DecidableEq

/-- `Match`: the predicate block of a rule. -/
structure Match where
  any : Option Bool := none
  sni : Option Str := none
  protocol : Option Str := none
  port : Option Str := none
  latency_ms : Option Str := none
  rtt_ms : Option Str := none
deriving DecidableEq

/-- `Action`. -/
structure Action where
  route : Option Str := none
  switch_route : Option Str := none
  block : Option Bool := none
  throttle : Option Str := none
  log : Option Bool := none
deriving DecidableEq

/-- `Rule` (the Rust field `r#match` is called `mtch` here since `match`
is a Lean keyword). -/
structure Rule where
  name : Str
  priority : Int
  mtch : Match
  whenSel : Option RuleWhen := none
  disable : Option StateSelector := none
  action : Action
deriving DecidableEq

/-- `RuleSet`. -/
structure RuleSet where
  rules : List Rule
deriving DecidableEq

/-- `RuleError`. -/
inductive RuleError where
  | Yaml (msg : Str)
  | Invalid (msg : Str)
deriving DecidableEq

/-! ## Engine state (`src/core/state.rs`) -/

/-- `EngineState`. -/
inductive EngineState where
  | Normal
  | Degraded
  | Failover
  | Recovery
deriving DecidableEq

/-- `StateMachine::transition`, as the pure step function on the held state.
The `f32` error rate is modelled as a rational number; absent observations
default to `0` exactly as `unwrap_or` does in the source. -/
def transition (state : EngineState) (latency_ms : Option Nat) (error_rate : Option ℚ) :
    EngineState :=
  let latency_high := latency_ms.getD 0 > 120
  let error_high := error_rate.getD 0 > 0.05
  match state with
  | .Normal => if latency_high ∨ error_high then .Degraded else .Normal
  | .Degraded => if latency_high ∨ error_high then .Failover else .Recovery
  | .Failover => if latency_high ∨ error_high then .Failover else .Recovery
  | .Recovery => if latency_high ∨ error_high then .Degraded else .Normal

/-! ## Decision engine (`src/core/engine.rs`) -/

/-- `EngineDecisionKind`. -/
inductive EngineDecisionKind where
  | Action
  | NoMatch
deriving DecidableEq

/-- `MatchContext`. -/
structure MatchContext where
  sni : Option Str := none
  protocol : Option Str := none
  port : Option Nat := none
  latency_ms : Option Nat := none
  rtt_ms : Option Nat := none
deriving DecidableEq

/-- `EngineDecision` (the Rust references are modelled as copies of the
referenced rule/action values). -/
structure EngineDecision where
  kind : EngineDecisionKind
  rule : Option Rule
  action : Option Action
deriving DecidableEq

/-- `state_to_str`. -/
def state_to_str : EngineState → Str
  | .Normal => strOf "NORMAL"
  | .Degraded => strOf "DEGRADED"
  | .Failover => strOf "FAILOVER"
  | .Recovery => strOf "RECOVERY"

/-- `normalize_state`. -/
def normalize_state (value : Str) : Str := strUpper (trimStr value)

/-- `selector_contains_state`. -/
def selector_contains_state (selector : StateSelector) (state : EngineState) : Bool :=
  let state_name := state_to_str state
  match selector with
  | .Single s => normalize_state s = state_name
  | .Many list => list.any fun item => normalize_state item = state_name

/-- `rule_applies_state`. -/
def rule_applies_state (rule : Rule) (state : EngineState) : Bool :=
  if (match rule.disable with
      | some selector => selector_contains_state selector state
      | none => false) then
    false
  else
    match rule.whenSel with
    | some w =>
      match w.state with
      | some selector => selector_contains_state selector state
      | none => true
    | none => true

/-- `match_sni`. -/
def match_sni (pattern : Str) (value : Option Str) : Bool :=
  match value with
  | none => false
  | some v =>
    let v := strLower v
    let pattern := strLower pattern
    if pattern = strOf "*" then true
    else
      match dropPre? (strOf "*.") pattern with
      | some stripped => isSuf stripped v
      | none =>
        match dropPre? (strOf "*") pattern with
        | some stripped => isSuf stripped v
        | none =>
          match dropSuf? (strOf "*") pattern with
          | some stripped => isPre stripped v
          | none => v = pattern

/-- One entry of the `match_port` loop: `true` when the entry accepts `port`,
`false` when it does not or is skipped (`continue`). -/
def portEntryAccepts (entry : Str) (port : Nat) : Bool :=
  let token := trimStr entry
  if token = [] then false
  else
    match splitOnce '-' token with
    | some (s, e) =>
      match parseU16 (trimStr s), parseU16 (trimStr e) with
      | some lo, some hi => lo ≤ port && port ≤ hi
      | _, _ => false
    | none =>
      match parseU16 token with
      | some v => v = port
      | none => false

/-- `match_port`. -/
def match_port (pattern : Str) (port : Nat) : Bool :=
  (splitSep ',' pattern).any fun entry => portEntryAccepts entry port

/-- `Comparator`. -/
inductive Comparator where
  | Gt
  | Gte
  | Lt
  | Lte
  | Eq
deriving DecidableEq

/-- `parse_comparator`. -/
def parse_comparator (expr : Str) : Option (Comparator × Nat) :=
  let trimmed := trimStr expr
  let step : Option (Comparator × Str) :=
    match dropPre? (strOf ">=") trimmed with
    | some s => some (.Gte, s)
    | none =>
      match dropPre? (strOf "<=") trimmed with
      | some s => some (.Lte, s)
      | none =>
        match dropPre? (strOf ">") trimmed with
        | some s => some (.Gt, s)
        | none =>
          match dropPre? (strOf "<") trimmed with
          | some s => some (.Lt, s)
          | none =>
            match dropPre? (strOf "==") trimmed with
            | some s => some (.Eq, s)
            | none =>
              match dropPre? (strOf "=") trimmed with
              | some s => some (.Eq, s)
              | none => none
  match step with
  | none => none
  | some (op, rest) =>
    match parseU32 (trimStr rest) with
    | some value => some (op, value)
    | none => none

/-- `compare_numeric`. -/
def compare_numeric (expr : Str) (value : Nat) : Bool :=
  let expr := trimStr expr
  match parse_comparator expr with
  | none => false
  | some (op, rhs) =>
    match op with
    | .Gt => value > rhs
    | .Gte => value ≥ rhs
    | .Lt => value < rhs
    | .Lte => value ≤ rhs
    | .Eq => value = rhs

/-- `specificity`. -/
def specificity (rule : Rule) : Int :=
  let m := rule.mtch
  if m.any = some true then 0
  else
    (if m.sni.isSome then 1 else 0) + (if m.protocol.isSome then 1 else 0) +
    (if m.port.isSome then 1 else 0) + (if m.latency_ms.isSome then 1 else 0) +
    (if m.rtt_ms.isSome then 1 else 0)

/-- `compare_rule`. -/
def compare_rule (a b : Rule) : Int :=
  if a.priority ≠ b.priority then
    if a.priority > b.priority then 1 else -1
  else
    let a_spec := specificity a
    let b_spec := specificity b
    if a_spec > b_spec then 1
    else if a_spec < b_spec then -1
    else 0

/-- `rule_matches`. -/
def rule_matches (m : Match) (ctx : MatchContext) : Bool :=
  if m.any = some true then true
  else
    (match m.sni with
      | some sni => match_sni sni ctx.sni
      | none => true) &&
    (match m.protocol with
      | some proto =>
        match ctx.protocol with
        | some p => strLower proto = strLower p
        | none => false
      | none => true) &&
    (match m.port with
      | some port =>
        match ctx.port with
        | some p => match_port port p
        | none => false
      | none => true) &&
    (match m.latency_ms with
      | some latency =>
        match ctx.latency_ms with
        | some v => compare_numeric latency v
        | none => false
      | none => true) &&
    (match m.rtt_ms with
      | some rtt =>
        match ctx.rtt_ms with
        | some v => compare_numeric rtt v
        | none => false
      | none => true)

/-- The body of the `for` loop in `evaluate_ruleset`: fold the current best
candidate across the remaining rules. -/
def evalLoop (ctx : MatchContext) (state : EngineState) :
    Option Rule → List Rule → Option Rule
  | best, [] => best
  | best, rule :: rest =>
    if rule_applies_state rule state = false then evalLoop ctx state best rest
    else if rule_matches rule.mtch ctx = false then evalLoop ctx state best rest
    else
      let better := match best with
        | none => true
        | some current => compare_rule rule current > 0
      evalLoop ctx state (if better then some rule else best) rest

/-- `evaluate_ruleset`. -/
def evaluate_ruleset (ruleset : RuleSet) (ctx : MatchContext) (state : EngineState) :
    Except RuleError EngineDecision :=
  if ruleset.rules = [] then
    .error (.Invalid (strOf "rules must not be empty"))
  else
    match evalLoop ctx state none ruleset.rules with
    | some rule => .ok ⟨.Action, some rule, some rule.action⟩
    | none => .ok ⟨.NoMatch, none, none⟩

/-! ## Ruleset validation (`src/core/rules.rs`) -/

/-- `validate_state_value`. -/
def validate_state_value (value : Str) : Except RuleError Unit :=
  let normalized := strUpper (trimStr value)
  if normalized = strOf "NORMAL" ∨ normalized = strOf "DEGRADED" ∨
      normalized = strOf "FAILOVER" ∨ normalized = strOf "RECOVERY" then
    .ok ()
  else
    .error (.Invalid (strOf "invalid state value: " ++ value))

/-- `validate_state_selector`. -/
def validate_state_selector (selector : StateSelector) : Except RuleError Unit :=
  match selector with
  | .Single s => validate_state_value s
  | .Many list =>
    if list = [] then .error (.Invalid (strOf "state list must not be empty"))
    else list.foldlM (fun _ item => validate_state_value item) ()

/-- One entry of the loop in `validate_port_pattern`. -/
def validatePortEntry (entry : Str) : Except RuleError Unit :=
  let token := trimStr entry
  if token = [] then
    .error (.Invalid (strOf "port pattern must not contain empty entries"))
  else
    match splitOnce '-' token with
    | some (s, e) =>
      match parseU16 (trimStr s) with
      | none => .error (.Invalid (strOf "invalid port range start: " ++ s))
      | some start =>
        match parseU16 (trimStr e) with
        | none => .error (.Invalid (strOf "invalid port range end: " ++ e))
        | some stop =>
          if start > stop then
            .error (.Invalid (strOf "invalid port range (start > end): " ++ token))
          else .ok ()
    | none =>
      match parseU16 token with
      | none => .error (.Invalid (strOf "invalid port value: " ++ token))
      | some _ => .ok ()

/-- `validate_port_pattern`. -/
def validate_port_pattern (value : Str) : Except RuleError Unit :=
  (splitSep ',' value).foldlM (fun _ entry => validatePortEntry entry) ()

/-- `validate_match`. -/
def validate_match (m : Match) : Except RuleError Unit :=
  if m.any = some true then .ok ()
  else
    let has_any := m.sni.isSome ∨ m.protocol.isSome ∨ m.port.isSome ∨
      m.latency_ms.isSome ∨ m.rtt_ms.isSome
    if ¬ has_any then
      .error (.Invalid (strOf "match must contain at least one field or any: true"))
    else
      match m.port with
      | some port => validate_port_pattern port
      | none => .ok ()

/-- `validate_action`. -/
def validate_action (a : Action) : Except RuleError Unit :=
  let primary := [a.route.isSome, a.switch_route.isSome, a.block = some true,
    a.throttle.isSome]
  let primary_count := primary.count true
  if primary_count = 0 then
    .error (.Invalid (strOf "action must include one primary action"))
  else if primary_count > 1 then
    .error (.Invalid (strOf "action must not include multiple primary actions"))
  else .ok ()

/-- `validate_rule`. -/
def validate_rule (rule : Rule) : Except RuleError Unit := do
  if trimStr rule.name = [] then
    throw (RuleError.Invalid (strOf "rule name is required"))
  if rule.priority < 0 then
    throw (RuleError.Invalid (strOf "priority must be >= 0"))
  match rule.whenSel with
  | some w =>
    match w.state with
    | some selector => validate_state_selector selector
    | none => pure ()
  | none => pure ()
  match rule.disable with
  | some selector => validate_state_selector selector
  | none => pure ()
  validate_match rule.mtch
  validate_action rule.action

/-- `validate_ruleset`. -/
def validate_ruleset (ruleset : RuleSet) : Except RuleError Unit := do
  if ruleset.rules = [] then
    throw (RuleError.Invalid (strOf "rules must not be empty"))
  ruleset.rules.foldlM (fun _ rule => validate_rule rule) ()

/-! ## Engine selection lemmas -/

/-- A rule is eligible for the current state and its predicate holds for the
context: exactly the rules the evaluation loop does not skip. -/
def eligMatch (ctx : MatchContext) (state : EngineState) (r : Rule) : Bool :=
  rule_applies_state r state && rule_matches r.mtch ctx

/-- The pure max-scan the evaluation loop performs on the rules it keeps. -/
def selectBest : Option Rule → List Rule → Option Rule
  | best, [] => best
  | best, r :: rest =>
    selectBest
      (match best with
        | none => some r
        | some current => if compare_rule r current > 0 then some r else some current)
      rest

/-- The strict lexicographic order on `(priority, specificity)` from the spec. -/
def ruleLt (a b : Rule) : Prop :=
  a.priority < b.priority ∨ (a.priority = b.priority ∧ specificity a < specificity b)

lemma compare_rule_pos_iff (a b : Rule) : compare_rule a b > 0 ↔ ruleLt b a := by
  simp only [compare_rule, ruleLt]
  split_ifs <;> omega

lemma ruleLt_shift (a b c : Rule) (h1 : ¬ ruleLt a b) (h2 : ruleLt a c) : ruleLt b c := by
  unfold ruleLt at *; omega

lemma ruleLt_block (w r c : Rule) (h1 : ¬ ruleLt w r) (h2 : ruleLt c r) : ¬ ruleLt w c := by
  unfold ruleLt at *; omega

lemma ruleLt_block' (w c r : Rule) (h1 : ¬ ruleLt w c) (h2 : ¬ ruleLt c r) : ¬ ruleLt w r := by
  unfold ruleLt at *; omega

lemma ruleLt_trans (a b c : Rule) (h1 : ruleLt a b) (h2 : ruleLt b c) : ruleLt a c := by
  unfold ruleLt at *; omega

lemma ruleLt_irrefl (a : Rule) : ¬ ruleLt a a := by
  unfold ruleLt; omega

/-- The evaluation loop is the max-scan over the rules that are eligible
and matching. -/
lemma evalLoop_eq_selectBest (ctx : MatchContext) (st : EngineState)
    (best : Option Rule) (l : List Rule) :
    evalLoop ctx st best l = selectBest best (l.filter (eligMatch ctx st)) := by
  induction l generalizing best with
  | nil => rfl
  | cons r rest ih =>
    by_cases ha : rule_applies_state r st = false
    · have helig : eligMatch ctx st r = false := by
        simp [eligMatch, ha]
      simp [evalLoop, ha, helig, ih]
    · rw [Bool.not_eq_false] at ha
      by_cases hm : rule_matches r.mtch ctx = false
      · have helig : eligMatch ctx st r = false := by
          simp [eligMatch, ha, hm]
        simp [evalLoop, ha, hm, helig, ih]
      · rw [Bool.not_eq_false] at hm
        have helig : eligMatch ctx st r = true := by
          simp [eligMatch, ha, hm]
        cases best with
        | none => simp [evalLoop, ha, hm, helig, selectBest, ih]
        | some current => simp [evalLoop, ha, hm, helig, selectBest, ih]

lemma selectBest_acc_char (c : Rule) (l : List Rule) (w : Rule)
    (h : selectBest (some c) l = some w) :
    (∀ r ∈ l, ¬ ruleLt w r) ∧ ¬ ruleLt w c ∧
      (w = c ∨ ∃ l₁ l₂, l = l₁ ++ w :: l₂ ∧ ruleLt c w ∧ ∀ r ∈ l₁, ruleLt r w) := by
  induction l generalizing c with
  | nil =>
    simp only [selectBest, Option.some.injEq] at h
    subst h
    exact ⟨by simp, ruleLt_irrefl _, Or.inl rfl⟩
  | cons r rest ih =>
    by_cases hcmp : compare_rule r c > 0
    · have hlt : ruleLt c r := (compare_rule_pos_iff r c).mp hcmp
      have hstep : selectBest (some r) rest = some w := by
        simpa [selectBest, hcmp] using h
      obtain ⟨h1, h2, h3⟩ := ih r hstep
      refine ⟨?_, ?_, ?_⟩
      · intro x hx
        rcases List.mem_cons.mp hx with hx | hx
        · exact hx ▸ h2
        · exact h1 x hx
      · exact ruleLt_block w r c h2 hlt
      · rcases h3 with rfl | ⟨l₁, l₂, hsplit, hcw, hall⟩
        · exact Or.inr ⟨[], rest, rfl, hlt, by simp⟩
        · refine Or.inr ⟨r :: l₁, l₂, by simp [hsplit], ruleLt_trans c r w hlt hcw, ?_⟩
          intro x hx
          rcases List.mem_cons.mp hx with rfl | hx
          · exact hcw
          · exact hall x hx
    · have hnlt : ¬ ruleLt c r := fun hl => hcmp ((compare_rule_pos_iff r c).mpr hl)
      have hstep : selectBest (some c) rest = some w := by
        simpa [selectBest, hcmp] using h
      obtain ⟨h1, h2, h3⟩ := ih c hstep
      refine ⟨?_, h2, ?_⟩
      · intro x hx
        rcases List.mem_cons.mp hx with rfl | hx
        · exact ruleLt_block' w c x h2 hnlt
        · exact h1 x hx
      · rcases h3 with rfl | ⟨l₁, l₂, hsplit, hcw, hall⟩
        · exact Or.inl rfl
        · refine Or.inr ⟨r :: l₁, l₂, by simp [hsplit], hcw, ?_⟩
          intro x hx
          rcases List.mem_cons.mp hx with rfl | hx
          · exact ruleLt_shift c x w hnlt hcw
          · exact hall x hx

/-- The max-scan started empty returns the first-seen maximum: every rule
strictly before the winner is strictly below it, and no rule after it
is strictly above it. -/
lemma selectBest_none_char (l : List Rule) (w : Rule)
    (h : selectBest none l = some w) :
    ∃ l₁ l₂, l = l₁ ++ w :: l₂ ∧ (∀ r ∈ l₁, ruleLt r w) ∧ ∀ r ∈ l₂, ¬ ruleLt w r := by
  cases l with
  | nil => simp [selectBest] at h
  | cons x rest =>
    have hstep : selectBest (some x) rest = some w := by
      simpa [selectBest] using h
    obtain ⟨h1, h2, h3⟩ := selectBest_acc_char x rest w hstep
    rcases h3 with rfl | ⟨l₁, l₂, hsplit, hcw, hall⟩
    · exact ⟨[], rest, rfl, by simp, h1⟩
    · refine ⟨x :: l₁, l₂, by simp [hsplit], ?_, ?_⟩
      · intro r hr
        rcases List.mem_cons.mp hr with rfl | hr
        · exact hcw
        · exact hall r hr
      · intro r hr
        exact h1 r (by simp [hsplit]; right; right; exact hr)

/-- The first-seen-maximum characterization determines the winner uniquely. -/
lemma firstMax_unique (l : List Rule) (w w' : Rule)
    (h : ∃ l₁ l₂, l = l₁ ++ w :: l₂ ∧ (∀ r ∈ l₁, ruleLt r w) ∧ ∀ r ∈ l₂, ¬ ruleLt w r)
    (h' : ∃ l₁ l₂, l = l₁ ++ w' :: l₂ ∧ (∀ r ∈ l₁, ruleLt r w') ∧ ∀ r ∈ l₂, ¬ ruleLt w' r) :
    w = w' := by
  obtain ⟨l₁, l₂, hsplit, hbefore, hafter⟩ := h
  obtain ⟨l₁', l₂', hsplit', hbefore', hafter'⟩ := h'
  have heq : l₁ ++ w :: l₂ = l₁' ++ w' :: l₂' := hsplit ▸ hsplit'
  rcases List.append_eq_append_iff.mp heq with ⟨as, hc, hb⟩ | ⟨cs, hc, hb⟩
  · cases as with
    | nil =>
      simp only [List.nil_append, List.cons.injEq] at hb
      exact hb.1
    | cons a as' =>
      simp only [List.cons_append, List.cons.injEq] at hb
      obtain ⟨rfl, hb⟩ := hb
      have hw'mem : w' ∈ l₂ := by
        rw [hb]; exact List.mem_append.mpr (Or.inr (List.mem_cons_self _ _))
      have hwmem : w ∈ l₁' := by
        rw [hc]; exact List.mem_append.mpr (Or.inr (List.mem_cons_self _ _))
      exact absurd (hbefore' w hwmem) (hafter w' hw'mem)
  · cases cs with
    | nil =>
      simp only [List.nil_append, List.cons.injEq] at hb
      exact hb.1.symm
    | cons a cs' =>
      simp only [List.cons_append, List.cons.injEq] at hb
      obtain ⟨rfl, hb⟩ := hb
      have hwmem : w ∈ l₂' := by
        rw [hb]; exact List.mem_append.mpr (Or.inr (List.mem_cons_self _ _))
      have hw'mem : w' ∈ l₁ := by
        rw [hc]; exact List.mem_append.mpr (Or.inr (List.mem_cons_self _ _))
      exact absurd (hbefore w' hw'mem) (hafter' w hwmem)

/-- Soundness of a winning decision: the returned rule comes from the
ruleset, is eligible for the state, and its predicate holds. -/
lemma evaluate_ok_rule_sound (rs : RuleSet) (ctx : MatchContext) (st : EngineState)
    (d : EngineDecision) (r : Rule)
    (h : evaluate_ruleset rs ctx st = .ok d) (hr : d.rule = some r) :
    r ∈ rs.rules ∧ rule_applies_state r st = true ∧ rule_matches r.mtch ctx = true ∧
      d.kind = .Action ∧ d.action = some r.action := by
  unfold evaluate_ruleset at h
  split at h
  · exact absurd h (by simp)
  · rw [evalLoop_eq_selectBest] at h
    cases hw : selectBest none (rs.rules.filter (eligMatch ctx st)) with
    | none =>
      rw [hw] at h
      injection h with h
      subst h
      simp at hr
    | some w =>
      rw [hw] at h
      injection h with h
      subst h
      obtain rfl : w = r := by simpa using hr
      obtain ⟨l₁, l₂, hsplit, -, -⟩ := selectBest_none_char _ _ hw
      have hmem : w ∈ (rs.rules.filter (eligMatch ctx st)) := by
        rw [hsplit]; exact List.mem_append.mpr (Or.inr (List.mem_cons_self _ _))
      have helig := List.of_mem_filter hmem
      have hmem' := List.mem_of_mem_filter hmem
      simp only [eligMatch, Bool.and_eq_true] at helig
      exact ⟨hmem', helig.1, helig.2, rfl, rfl⟩

/-- The two possible shapes of a successful decision. -/
lemma evaluate_ok_shape (rs : RuleSet) (ctx : MatchContext) (st : EngineState)
    (d : EngineDecision) (h : evaluate_ruleset rs ctx st = .ok d) :
    d = ⟨.NoMatch, none, none⟩ ∨ ∃ w, d = ⟨.Action, some w, some w.action⟩ := by
  unfold evaluate_ruleset at h
  split at h
  · exact absurd h (by simp)
  · cases hw : evalLoop ctx st none rs.rules with
    | none => rw [hw] at h; injection h with h; exact Or.inl h.symm
    | some w => rw [hw] at h; injection h with h; exact Or.inr ⟨w, h.symm⟩

/-- Evaluation of a non-empty ruleset always succeeds. -/
lemma evaluate_nonempty_ok (rs : RuleSet) (ctx : MatchContext) (st : EngineState)
    (h : rs.rules ≠ []) : ∃ d, evaluate_ruleset rs ctx st = .ok d := by
  unfold evaluate_ruleset
  rw [if_neg h]
  cases evalLoop ctx st none rs.rules with
  | none => exact ⟨_, rfl⟩
  | some r => exact ⟨_, rfl⟩

/-! ## Claim theorems: state machine and specificity -/

/-- C5: from every starting state and observation `(latency_ms?, error_rate?)`,
one transition step lands in the state given by the table with
`bad = latency_ms > 120 ∨ error_rate > 0.05` and absent inputs read as 0:
Normal → Degraded on bad else Normal; Degraded → Failover on bad else
Recovery; Failover → Failover on bad else Recovery; Recovery → Degraded
on bad else Normal. -/
theorem transition_follows_table (lat : Option Nat) (err : Option ℚ) :
    (transition .Normal lat err =
      if lat.getD 0 > 120 ∨ err.getD 0 > 0.05 then .Degraded else .Normal) ∧
    (transition .Degraded lat err =
      if lat.getD 0 > 120 ∨ err.getD 0 > 0.05 then .Failover else .Recovery) ∧
    (transition .Failover lat err =
      if lat.getD 0 > 120 ∨ err.getD 0 > 0.05 then .Failover else .Recovery) ∧
    (transition .Recovery lat err =
      if lat.getD 0 > 120 ∨ err.getD 0 > 0.05 then .Degraded else .Normal) :=
  ⟨rfl, rfl, rfl, rfl⟩

/-- C7: the specificity used for winner selection is the count of present
fields among sni, protocol, port, latency_ms and rtt_ms, except that
`any: true` forces specificity 0 regardless of the other fields. -/
theorem specificity_counts_fields (r : Rule) :
    specificity r =
      if r.mtch.any = some true then 0
      else ([r.mtch.sni.isSome, r.mtch.protocol.isSome, r.mtch.port.isSome,
        r.mtch.latency_ms.isSome, r.mtch.rtt_ms.isSome].count true : Int) := by
  by_cases h : r.mtch.any = some true
  · simp [specificity, h]
  · cases hs1 : r.mtch.sni <;> cases hs2 : r.mtch.protocol <;> cases hs3 : r.mtch.port <;>
      cases hs4 : r.mtch.latency_ms <;> cases hs5 : r.mtch.rtt_ms <;>
      simp [specificity, h, hs1, hs2, hs3, hs4, hs5]

/-! ## Claim theorems: engine evaluation -/

/-- C2: evaluation of a ruleset with an empty rule list fails with
`Invalid("rules must not be empty")`; every successful evaluation returns
either a NoMatch decision carrying no rule, or an Action decision carrying a
member of the ruleset that is eligible for the engine state and whose match
predicate holds for the context. -/
theorem evaluate_ruleset_sound :
    (∀ (rs : RuleSet) (ctx : MatchContext) (st : EngineState), rs.rules = [] →
      evaluate_ruleset rs ctx st = .error (.Invalid (strOf "rules must not be empty"))) ∧
    (∀ (rs : RuleSet) (ctx : MatchContext) (st : EngineState) (d : EngineDecision),
      evaluate_ruleset rs ctx st = .ok d →
      (d.kind = .NoMatch ∧ d.rule = none ∧ d.action = none) ∨
      ∃ r, d.kind = .Action ∧ d.rule = some r ∧ d.action = some r.action ∧
        r ∈ rs.rules ∧ rule_applies_state r st = true ∧ rule_matches r.mtch ctx = true) := by
  constructor
  · intro rs ctx st hempty
    unfold evaluate_ruleset
    rw [if_pos hempty]
  · intro rs ctx st d h
    rcases evaluate_ok_shape rs ctx st d h with rfl | ⟨w, rfl⟩
    · exact Or.inl ⟨rfl, rfl, rfl⟩
    · obtain ⟨hmem, ha, hm, -, -⟩ := evaluate_ok_rule_sound rs ctx st _ w h rfl
      exact Or.inr ⟨w, rfl, rfl, rfl, hmem, ha, hm⟩

/-- A sample rule matching everything. -/
def demoRule : Rule :=
  { name := strOf "any", priority := 10, mtch := { any := some true },
    action := { route := some (strOf "fast") } }

/-- A sample one-rule ruleset. -/
def demoSet : RuleSet := ⟨[demoRule]⟩

theorem evaluate_ruleset_sound_witness :
    evaluate_ruleset ⟨[]⟩ {} .Normal = .error (.Invalid (strOf "rules must not be empty")) ∧
    (((⟨.Action, some demoRule, some demoRule.action⟩ : EngineDecision).kind = .NoMatch ∧
        (⟨.Action, some demoRule, some demoRule.action⟩ : EngineDecision).rule = none ∧
        (⟨.Action, some demoRule, some demoRule.action⟩ : EngineDecision).action = none) ∨
      ∃ r, (⟨.Action, some demoRule, some demoRule.action⟩ : EngineDecision).kind = .Action ∧
        (⟨.Action, some demoRule, some demoRule.action⟩ : EngineDecision).rule = some r ∧
        (⟨.Action, some demoRule, some demoRule.action⟩ : EngineDecision).action = some r.action ∧
        r ∈ demoSet.rules ∧ rule_applies_state r .Normal = true ∧
        rule_matches r.mtch {} = true) :=
  ⟨evaluate_ruleset_sound.1 ⟨[]⟩ {} .Normal rfl,
   evaluate_ruleset_sound.2 demoSet {} .Normal ⟨.Action, some demoRule, some demoRule.action⟩ rfl⟩

/-- C3: when the evaluation returns a winning rule, that rule is the
first-seen maximum of the eligible-and-matching rules under the strict
lexicographic order on (priority, specificity): every eligible matching rule
listed before it is strictly below it, no eligible matching rule is strictly
above it, and this characterization pins the winner down uniquely — the
winner is determined solely by (priority, specificity, input order). -/
theorem winner_is_first_seen_max (rs : RuleSet) (ctx : MatchContext) (st : EngineState)
    (d : EngineDecision) (w : Rule)
    (h : evaluate_ruleset rs ctx st = .ok d) (hw : d.rule = some w) :
    (∃ l₁ l₂, rs.rules.filter (eligMatch ctx st) = l₁ ++ w :: l₂ ∧
      (∀ r ∈ l₁, ruleLt r w) ∧ ∀ r ∈ l₂, ¬ ruleLt w r) ∧
    ∀ w', (∃ l₁ l₂, rs.rules.filter (eligMatch ctx st) = l₁ ++ w' :: l₂ ∧
      (∀ r ∈ l₁, ruleLt r w') ∧ ∀ r ∈ l₂, ¬ ruleLt w' r) → w' = w := by
  unfold evaluate_ruleset at h
  split at h
  · exact absurd h (by simp)
  · rw [evalLoop_eq_selectBest] at h
    cases hsel : selectBest none (rs.rules.filter (eligMatch ctx st)) with
    | none =>
      rw [hsel] at h
      injection h with h
      subst h
      simp at hw
    | some v =>
      rw [hsel] at h
      injection h with h
      subst h
      obtain rfl : v = w := by simpa using hw
      have hchar := selectBest_none_char _ _ hsel
      exact ⟨hchar, fun w' hchar' => firstMax_unique _ w' v hchar' hchar⟩

/-- A low-priority wildcard rule. -/
def demoLow : Rule :=
  { name := strOf "low", priority := 10, mtch := { any := some true },
    action := { route := some (strOf "slow"), log := some true } }

/-- A high-priority wildcard rule. -/
def demoHigh : Rule :=
  { name := strOf "high", priority := 90, mtch := { any := some true },
    action := { route := some (strOf "fast") } }

theorem winner_is_first_seen_max_witness :
    (∃ l₁ l₂, (RuleSet.mk [demoLow, demoHigh]).rules.filter (eligMatch {} .Normal) =
      l₁ ++ demoHigh :: l₂ ∧ (∀ r ∈ l₁, ruleLt r demoHigh) ∧
      ∀ r ∈ l₂, ¬ ruleLt demoHigh r) ∧
    ∀ w', (∃ l₁ l₂, (RuleSet.mk [demoLow, demoHigh]).rules.filter (eligMatch {} .Normal) =
      l₁ ++ w' :: l₂ ∧ (∀ r ∈ l₁, ruleLt r w') ∧ ∀ r ∈ l₂, ¬ ruleLt w' r) → w' = demoHigh :=
  winner_is_first_seen_max (RuleSet.mk [demoLow, demoHigh]) {} .Normal
    ⟨.Action, some demoHigh, some demoHigh.action⟩ demoHigh rfl rfl

/-- C6: a rule whose `disable` selector contains the current engine state
(state names compared case-insensitively after trimming) is ineligible —
`rule_applies_state` is false regardless of its `when` selector — and the
decision engine never returns it as the winner. -/
theorem disable_overrides_when (r : Rule) (sel : StateSelector) (st : EngineState)
    (hd : r.disable = some sel) (hc : selector_contains_state sel st = true) :
    rule_applies_state r st = false ∧
    ∀ (rs : RuleSet) (ctx : MatchContext) (d : EngineDecision),
      evaluate_ruleset rs ctx st = .ok d → d.rule ≠ some r := by
  have happ : rule_applies_state r st = false := by
    unfold rule_applies_state
    rw [hd]
    simp [hc]
  refine ⟨happ, ?_⟩
  intro rs ctx d h hrule
  obtain ⟨-, ha, -, -, -⟩ := evaluate_ok_rule_sound rs ctx st d r h hrule
  rw [happ] at ha
  exact Bool.false_ne_true ha

/-- A rule disabled in DEGRADED whose `when` selector also names DEGRADED. -/
def demoDisabled : Rule :=
  { name := strOf "disabled_in_degraded", priority := 100,
    mtch := { any := some true },
    whenSel := some ⟨some (.Single (strOf "degraded"))⟩,
    disable := some (.Many [strOf "DEGRADED"]),
    action := { route := some (strOf "fast") } }

theorem disable_overrides_when_witness :
    rule_applies_state demoDisabled .Degraded = false ∧
    ∀ (rs : RuleSet) (ctx : MatchContext) (d : EngineDecision),
      evaluate_ruleset rs ctx .Degraded = .ok d → d.rule ≠ some demoDisabled :=
  disable_overrides_when demoDisabled (.Many [strOf "DEGRADED"]) .Degraded rfl rfl

/-! ## Claim theorems: sni wildcard (C1) -/

/-- C1 (counterexample): the claim states that `*.zoom.us` does not match the
bare value `zoom.us`, but `match_sni` strips the whole `*.` marker — dot
included — before the suffix comparison, so the bare domain does match. -/
theorem match_sni_wildcard_matches_bare_domain :
    match_sni (strOf "*.zoom.us") (some (strOf "zoom.us")) = true := by decide

/-- C1 (amended): for every pattern of the form `*.suffix` and every present
context value, the sni predicate holds exactly when the lowercased value ends
with the lowercased suffix *without* the leading dot; in particular
`*.zoom.us` matches every value ending in `zoom.us`, including `zoom.us`
itself. -/
theorem match_sni_wildcard_drops_dot (suffix v : Str) :
    match_sni ('*' :: '.' :: suffix) (some v) = isSuf (strLower suffix) (strLower v) := by
  have h1 : lowerChar '*' = '*' := by decide
  have h2 : lowerChar '.' = '.' := by decide
  have hlow : strLower ('*' :: '.' :: suffix) = '*' :: '.' :: strLower suffix := by
    simp [strLower, h1, h2]
  simp only [match_sni, hlow]
  have hne : ('*' :: '.' :: strLower suffix) ≠ strOf "*" := by simp [strOf]
  rw [if_neg hne]
  have hdrop : dropPre? (strOf "*.") ('*' :: '.' :: strLower suffix) = some (strLower suffix) := by
    simp [strOf, dropPre?]
  rw [hdrop]

/-! ## Claim theorems: port patterns (C8) -/

/-- Refinement target written from the spec's words: a port `p` is denoted by
a pattern iff some comma-separated entry (trimmed) is either a single u16
equal to `p`, or an inclusive `lo-hi` range containing `p`. -/
def portPatternSpec (pat : Str) (p : Nat) : Prop :=
  ∃ entry ∈ splitSep ',' pat,
    (∃ v, splitOnce '-' (trimStr entry) = none ∧
      parseU16 (trimStr entry) = some v ∧ p = v) ∨
    (∃ s e lo hi, splitOnce '-' (trimStr entry) = some (s, e) ∧
      parseU16 (trimStr s) = some lo ∧ parseU16 (trimStr e) = some hi ∧
      lo ≤ p ∧ p ≤ hi)

lemma foldlM_ok_forall {α : Type} (f : α → Except RuleError Unit) (l : List α)
    (h : l.foldlM (fun _ e => f e) () = .ok ()) : ∀ e ∈ l, f e = .ok () := by
  induction l with
  | nil => simp
  | cons x xs ih =>
    rw [List.foldlM_cons] at h
    cases hf : f x with
    | error e =>
      rw [hf] at h
      exact absurd h (by simp [Bind.bind, Except.bind])
    | ok u =>
      obtain ⟨⟩ := u
      rw [hf] at h
      intro e he
      rcases List.mem_cons.mp he with rfl | he
      · exact hf
      · exact ih (by simpa [Bind.bind, Except.bind] using h) e he

lemma portEntry_ok_char (entry : Str) (p : Nat) (h : validatePortEntry entry = .ok ()) :
    (portEntryAccepts entry p = true ↔
      (∃ v, splitOnce '-' (trimStr entry) = none ∧
        parseU16 (trimStr entry) = some v ∧ p = v) ∨
      (∃ s e lo hi, splitOnce '-' (trimStr entry) = some (s, e) ∧
        parseU16 (trimStr s) = some lo ∧ parseU16 (trimStr e) = some hi ∧
        lo ≤ p ∧ p ≤ hi)) := by
  simp only [validatePortEntry] at h
  simp only [portEntryAccepts]
  by_cases htok : trimStr entry = []
  · rw [if_pos htok] at h
    exact absurd h (by simp)
  · rw [if_neg htok] at h
    rw [if_neg htok]
    split at h
    next s e hsp =>
      split at h
      next hs => simp at h
      next lo hs =>
        split at h
        next he => simp at h
        next hi he =>
          simp only [hsp, hs, he]
          constructor
          · intro hacc
            rw [Bool.and_eq_true, decide_eq_true_eq, decide_eq_true_eq] at hacc
            exact Or.inr ⟨s, e, lo, hi, rfl, hs, he, hacc.1, hacc.2⟩
          · rintro (⟨v, hnone, -, -⟩ | ⟨s', e', lo', hi', hsome, hs', he', hle1, hle2⟩)
            · cases hnone
            · obtain ⟨rfl, rfl⟩ : s = s' ∧ e = e' := by
                have h1 := Option.some.inj hsome
                exact ⟨congrArg Prod.fst h1, congrArg Prod.snd h1⟩
              rw [hs] at hs'
              rw [he] at he'
              obtain rfl : lo = lo' := Option.some.inj hs'
              obtain rfl : hi = hi' := Option.some.inj he'
              rw [Bool.and_eq_true, decide_eq_true_eq, decide_eq_true_eq]
              exact ⟨hle1, hle2⟩
    next hsp =>
      split at h
      next hv => simp at h
      next v hv =>
        simp only [hsp, hv]
        constructor
        · intro hacc
          exact Or.inl ⟨v, trivial, rfl, (decide_eq_true_eq.mp hacc).symm⟩
        · rintro (⟨v', -, hv', hpv⟩ | ⟨s', e', lo', hi', hsome, -, -, -, -⟩)
          · obtain rfl : v = v' := Option.some.inj hv'
            exact decide_eq_true_eq.mpr hpv.symm
          · cases hsome

/-- C8: for every port pattern accepted by validation and every u16 context
port, the port predicate holds iff the port equals one of the single entries
or lies inclusively within one of the ranges; concretely,
`match_port "22,1000-2000" p` holds iff `p = 22 ∨ 1000 ≤ p ≤ 2000`. -/
theorem match_port_iff_spec :
    (∀ pat p, validate_port_pattern pat = .ok () → p < 65536 →
      (match_port pat p = true ↔ portPatternSpec pat p)) ∧
    (∀ p, match_port (strOf "22,1000-2000") p = true ↔ p = 22 ∨ (1000 ≤ p ∧ p ≤ 2000)) := by
  constructor
  · intro pat p hval _
    have hall := foldlM_ok_forall validatePortEntry (splitSep ',' pat) hval
    unfold match_port portPatternSpec
    rw [List.any_eq_true]
    constructor
    · rintro ⟨entry, hmem, hacc⟩
      exact ⟨entry, hmem, (portEntry_ok_char entry p (hall entry hmem)).mp hacc⟩
    · rintro ⟨entry, hmem, hspec⟩
      exact ⟨entry, hmem, (portEntry_ok_char entry p (hall entry hmem)).mpr hspec⟩
  · intro p
    have hsplit : splitSep ',' (strOf "22,1000-2000") = [strOf "22", strOf "1000-2000"] := by
      decide
    have h1 : portEntryAccepts (strOf "22") p = decide (22 = p) := rfl
    have h2 : portEntryAccepts (strOf "1000-2000") p = (decide (1000 ≤ p) && decide (p ≤ 2000)) := rfl
    simp only [match_port, hsplit, List.any_cons, List.any_nil, h1, h2, Bool.or_false,
      Bool.or_eq_true, decide_eq_true_eq, Bool.and_eq_true]
    omega

theorem match_port_iff_spec_witness :
    validate_port_pattern (strOf "22,1000-2000") = .ok () ∧ 1500 < 65536 ∧
    (match_port (strOf "22,1000-2000") 1500 = true ↔
      portPatternSpec (strOf "22,1000-2000") 1500) :=
  ⟨rfl, by decide, match_port_iff_spec.1 (strOf "22,1000-2000") 1500 rfl (by decide)⟩

/-! ## Claim theorems: numeric comparators (C9) -/

lemma dropWhile_self {α : Type} (p : α → Bool) (l : List α) :
    List.dropWhile p (List.dropWhile p l) = List.dropWhile p l := by
  induction l with
  | nil => rfl
  | cons a t ih =>
    by_cases h : p a
    · simp [List.dropWhile_cons, h, ih]
    · simp [List.dropWhile_cons, h]

lemma dropWhile_length_le {α : Type} (p : α → Bool) (l : List α) :
    (List.dropWhile p l).length ≤ l.length := by
  induction l with
  | nil => simp
  | cons a t ih =>
    rw [List.dropWhile_cons]
    by_cases h : p a
    · rw [if_pos h]; simp; omega
    · rw [if_neg h]

lemma dropWhile_suf {α : Type} (p : α → Bool) (l : List α) :
    List.dropWhile p l <:+ l := by
  induction l with
  | nil => simp
  | cons a t ih =>
    rw [List.dropWhile_cons]
    by_cases h : p a
    · rw [if_pos h]; exact ih.trans (List.suffix_cons a t)
    · rw [if_neg h]

lemma dropWhile_cons_head {α : Type} (p : α → Bool) (a : α) (l : List α)
    (h : List.dropWhile p (a :: l) = a :: l) : p a = false := by
  by_contra hpa
  rw [Bool.not_eq_false] at hpa
  rw [List.dropWhile_cons, if_pos hpa] at h
  have hlen := congrArg List.length h
  have hle := dropWhile_length_le p l
  simp at hlen
  omega

lemma dropWhile_eq_self_of_pre {α : Type} (p : α → Bool) (m n : List α)
    (hm : List.dropWhile p m = m) (hn : n <+: m) : List.dropWhile p n = n := by
  cases n with
  | nil => rfl
  | cons a t =>
    obtain ⟨rest, hr⟩ := hn
    rw [List.cons_append] at hr
    rw [← hr] at hm
    have hpa : p a = false := dropWhile_cons_head p a (t ++ rest) hm
    rw [List.dropWhile_cons, if_neg (by simp [hpa])]

/-- `str::trim` is idempotent. -/
lemma trimStr_idem (s : Str) : trimStr (trimStr s) = trimStr s := by
  unfold trimStr
  have hft : List.dropWhile isWs
      (((s.dropWhile isWs).reverse.dropWhile isWs).reverse) =
      ((s.dropWhile isWs).reverse.dropWhile isWs).reverse := by
    apply dropWhile_eq_self_of_pre isWs (s.dropWhile isWs)
    · exact dropWhile_self isWs s
    · apply List.reverse_suffix.mp
      rw [List.reverse_reverse]
      exact dropWhile_suf isWs (s.dropWhile isWs).reverse
  rw [hft]
  rw [List.reverse_reverse]
  rw [dropWhile_self]

/-- A whitespace-free string trims to itself. -/
lemma trimStr_of_no_ws (s : Str) (h : ∀ c ∈ s, isWs c = false) : trimStr s = s := by
  unfold trimStr
  have h1 : s.dropWhile isWs = s := by
    cases s with
    | nil => rfl
    | cons a t =>
      rw [List.dropWhile_cons, if_neg (by simp [h a (List.mem_cons_self a t)])]
  rw [h1]
  have h2 : s.reverse.dropWhile isWs = s.reverse := by
    cases hs : s.reverse with
    | nil => rfl
    | cons a t =>
      have ha : a ∈ s := by
        rw [← List.mem_reverse, hs]; exact List.mem_cons_self a t
      rw [List.dropWhile_cons, if_neg (by simp [h a ha])]
  rw [h2, List.reverse_reverse]

lemma digit_not_ws (c : Char) (h : c.isDigit = true) : isWs c = false := by
  unfold isWs
  by_contra hws
  rw [Bool.not_eq_false] at hws
  simp only [Char.isWhitespace, Bool.or_eq_true, decide_eq_true_eq] at hws
  rcases hws with ((rfl | rfl) | rfl) | rfl <;> exact absurd h (by decide)

lemma parseDigits_shape (s : Str) (k : Nat) (h : parseDigits s = some k) :
    s ≠ [] ∧ s.all Char.isDigit = true := by
  cases s with
  | nil => simp [parseDigits] at h
  | cons a t =>
    refine ⟨by simp, ?_⟩
    by_cases hall : (a :: t).all Char.isDigit
    · exact hall
    · rw [show parseDigits (a :: t) =
        (if (a :: t).all Char.isDigit then
          some ((a :: t).foldl (fun x c => x * 10 + digitVal c) 0) else none) from rfl,
        if_neg hall] at h
      cases h

lemma parseUInt_shape (bound : Nat) (s : Str) (n : Nat) (h : parseUInt bound s = some n) :
    ∃ c cs, s = c :: cs ∧ (c = '+' ∨ c.isDigit = true) ∧
      ∀ x ∈ s, (x = '+' ∨ x.isDigit = true) := by
  unfold parseUInt at h
  cases s with
  | nil => simp at h
  | cons c cs =>
    dsimp only at h
    by_cases hc : c = '+'
    · rw [if_pos hc] at h
      cases hd : parseDigits cs with
      | none => rw [hd] at h; simp at h
      | some v =>
        have hall := (parseDigits_shape cs v hd).2
        refine ⟨c, cs, rfl, Or.inl hc, ?_⟩
        intro x hx
        rcases List.mem_cons.mp hx with rfl | hx
        · exact Or.inl hc
        · exact Or.inr (List.all_eq_true.mp hall x hx)
    · rw [if_neg hc] at h
      cases hd : parseDigits (c :: cs) with
      | none => rw [hd] at h; simp at h
      | some v =>
        have hall := (parseDigits_shape (c :: cs) v hd).2
        refine ⟨c, cs, rfl, Or.inr (List.all_eq_true.mp hall c (List.mem_cons_self c cs)), ?_⟩
        intro x hx
        exact Or.inr (List.all_eq_true.mp hall x hx)

lemma not_ws_of_plus_or_digit (c : Char) (h : c = '+' ∨ c.isDigit = true) :
    isWs c = false := by
  rcases h with rfl | hd
  · decide
  · exact digit_not_ws c hd

/-- C9: for every comparator symbol in `{>, >=, <, <=, =, ==}`, u32 bound `n`
(written as any string `s` the u32 parser reads as `n`) and u32 context value
`v`, the numeric predicate built from the symbol followed by the bound holds
iff the corresponding mathematical relation between `v` and `n` holds, with
both `=` and `==` denoting equality; surrounding whitespace on the expression
is ignored. -/
theorem compare_numeric_matches_relation :
    (∀ s n v, parseU32 s = some n → v < 4294967296 →
      (compare_numeric ('>' :: s) v = true ↔ v > n) ∧
      (compare_numeric ('>' :: '=' :: s) v = true ↔ v ≥ n) ∧
      (compare_numeric ('<' :: s) v = true ↔ v < n) ∧
      (compare_numeric ('<' :: '=' :: s) v = true ↔ v ≤ n) ∧
      (compare_numeric ('=' :: s) v = true ↔ v = n) ∧
      (compare_numeric ('=' :: '=' :: s) v = true ↔ v = n)) ∧
    (∀ expr v, compare_numeric expr v = compare_numeric (trimStr expr) v) := by
  constructor
  · intro s n v hs _
    obtain ⟨c, cs, rfl, hc, hall⟩ := parseUInt_shape _ _ _ hs
    have hnws : ∀ x ∈ (c :: cs), isWs x = false := fun x hx =>
      not_ws_of_plus_or_digit x (hall x hx)
    have htrims : trimStr (c :: cs) = c :: cs := trimStr_of_no_ws _ hnws
    have hne : ('=' : Char) ≠ c := by
      rcases hc with rfl | hd
      · decide
      · intro he; rw [← he] at hd; exact absurd hd (by decide)
    have htrim1 : ∀ (op : Str), (∀ y ∈ op, isWs y = false) →
        trimStr (op ++ c :: cs) = op ++ c :: cs := by
      intro op hop
      apply trimStr_of_no_ws
      intro x hx
      rcases List.mem_append.mp hx with hx | hx
      · exact hop x hx
      · exact hnws x hx
    refine ⟨?_, ?_, ?_, ?_, ?_, ?_⟩
    · have ht : trimStr ('>' :: c :: cs) = '>' :: c :: cs := htrim1 ['>'] (by decide)
      simp [compare_numeric, parse_comparator, ht, hne, htrims, hs, strOf, dropPre?]
    · have ht : trimStr ('>' :: '=' :: c :: cs) = '>' :: '=' :: c :: cs :=
        htrim1 ['>', '='] (by decide)
      simp [compare_numeric, parse_comparator, ht, hne, htrims, hs, strOf, dropPre?]
    · have ht : trimStr ('<' :: c :: cs) = '<' :: c :: cs := htrim1 ['<'] (by decide)
      simp [compare_numeric, parse_comparator, ht, hne, htrims, hs, strOf, dropPre?]
    · have ht : trimStr ('<' :: '=' :: c :: cs) = '<' :: '=' :: c :: cs :=
        htrim1 ['<', '='] (by decide)
      simp [compare_numeric, parse_comparator, ht, hne, htrims, hs, strOf, dropPre?]
    · have ht : trimStr ('=' :: c :: cs) = '=' :: c :: cs := htrim1 ['='] (by decide)
      simp [compare_numeric, parse_comparator, ht, hne, htrims, hs, strOf, dropPre?]
    · have ht : trimStr ('=' :: '=' :: c :: cs) = '=' :: '=' :: c :: cs :=
        htrim1 ['=', '='] (by decide)
      simp [compare_numeric, parse_comparator, ht, hne, htrims, hs, strOf, dropPre?]
  · intro expr v
    simp only [compare_numeric, trimStr_idem]

theorem compare_numeric_matches_relation_witness :
    parseU32 (strOf "100") = some 100 ∧ 150 < 4294967296 ∧
    ((compare_numeric ('>' :: strOf "100") 150 = true ↔ 150 > 100) ∧
      (compare_numeric ('>' :: '=' :: strOf "100") 150 = true ↔ 150 ≥ 100) ∧
      (compare_numeric ('<' :: strOf "100") 150 = true ↔ 150 < 100) ∧
      (compare_numeric ('<' :: '=' :: strOf "100") 150 = true ↔ 150 ≤ 100) ∧
      (compare_numeric ('=' :: strOf "100") 150 = true ↔ 150 = 100) ∧
      (compare_numeric ('=' :: '=' :: strOf "100") 150 = true ↔ 150 = 100)) :=
  ⟨by decide, by decide,
    compare_numeric_matches_relation.1 (strOf "100") 100 150 (by decide) (by decide)⟩

/-! ## Claim theorems: error behaviour and fail-closed comparators (C10) -/

lemma parse_comparator_trim (s : Str) : parse_comparator (trimStr s) = parse_comparator s := by
  simp only [parse_comparator, trimStr_idem]

/-- C10 (counterexample): the claim says a rule carrying an unparseable
comparator string never matches any context, but a rule that also sets
`any: true` matches unconditionally — the wildcard short-circuits before the
comparator is consulted. -/
theorem unparseable_comparator_still_matches_with_any :
    parse_comparator (strOf "oops") = none ∧
    rule_matches { any := some true, latency_ms := some (strOf "oops") } {} = true :=
  ⟨by decide, by decide⟩

/-- C10 (amended): evaluation returns an error iff the rule list is empty;
validation does not reject a match block whose latency_ms/rtt_ms string is
malformed (any string is accepted there); and a rule without `any: true`
carrying an unparseable comparator string never matches any context — the
predicate fails closed instead of raising. -/
theorem evaluate_error_iff_empty_and_fail_closed :
    (∀ (rs : RuleSet) (ctx : MatchContext) (st : EngineState),
      (∃ e, evaluate_ruleset rs ctx st = .error e) ↔ rs.rules = []) ∧
    (∀ (m : Match) (s : Str), m.latency_ms = some s ∨ m.rtt_ms = some s →
      m.port = none → validate_match m = .ok ()) ∧
    (∀ (m : Match) (ctx : MatchContext) (s : Str), m.any ≠ some true →
      parse_comparator s = none → (m.latency_ms = some s ∨ m.rtt_ms = some s) →
      rule_matches m ctx = false) := by
  refine ⟨?_, ?_, ?_⟩
  · intro rs ctx st
    constructor
    · rintro ⟨e, he⟩
      by_contra hne
      obtain ⟨d, hd⟩ := evaluate_nonempty_ok rs ctx st hne
      rw [hd] at he
      cases he
    · intro hempty
      exact ⟨_, by unfold evaluate_ruleset; rw [if_pos hempty]⟩
  · intro m s hfield hport
    unfold validate_match
    by_cases hany : m.any = some true
    · rw [if_pos hany]
    · rw [if_neg hany]
      have hhas : m.sni.isSome ∨ m.protocol.isSome ∨ m.port.isSome ∨
          m.latency_ms.isSome ∨ m.rtt_ms.isSome := by
        rcases hfield with h | h
        · exact Or.inr (Or.inr (Or.inr (Or.inl (by simp [h]))))
        · exact Or.inr (Or.inr (Or.inr (Or.inr (by simp [h]))))
      rw [if_neg (not_not_intro hhas), hport]
  · intro m ctx s hany hparse hfield
    have hcmp : ∀ v, compare_numeric s v = false := by
      intro v
      simp only [compare_numeric]
      rw [parse_comparator_trim, hparse]
    unfold rule_matches
    rw [if_neg hany]
    rcases hfield with hlat | hrtt
    · rw [hlat]
      cases ctx.latency_ms with
      | none => simp
      | some v => simp [hcmp v]
    · rw [hrtt]
      cases ctx.rtt_ms with
      | none => simp
      | some v => simp [hcmp v]

/-- The empty ruleset. -/
def emptySet : RuleSet := ⟨[]⟩

/-- A match block with a well-formed protocol field and a malformed
latency comparator. -/
def garbageMatch : Match :=
  { protocol := some (strOf "tcp"), latency_ms := some (strOf "oops") }

theorem evaluate_error_iff_empty_and_fail_closed_witness :
    ((∃ e, evaluate_ruleset emptySet {} .Normal = .error e) ↔ emptySet.rules = []) ∧
    validate_match garbageMatch = .ok () ∧
    rule_matches garbageMatch {} = false :=
  ⟨evaluate_error_iff_empty_and_fail_closed.1 emptySet {} .Normal,
   evaluate_error_iff_empty_and_fail_closed.2.1 garbageMatch (strOf "oops")
     (Or.inl rfl) rfl,
   evaluate_error_iff_empty_and_fail_closed.2.2 garbageMatch {} (strOf "oops")
     (by decide) (by decide) (Or.inl rfl)⟩

/-! ## Proxy-link codec (`src/core/xray.rs`) -/

/-- `XrayError`. -/
inductive XrayError where
  | InvalidUrl (msg : Str)
  | Decode (msg : Str)
  | Parse (msg : Str)
deriving DecidableEq

/-- `VmessLink`: the JSON payload of a `vmess://` URI. -/
structure VmessLink where
  ps : Option Str := none
  add : Str
  port : Str
  id : Str
  net : Option Str := none
  tls : Option Str := none
  sni : Option Str := none
  host : Option Str := none
  path : Option Str := none
deriving DecidableEq

/-- `ProxyNode`. -/
structure ProxyNode where
  tag : Str
  protocol : Str
  server : Str
  port : Nat
  uuid : Option Str
  password : Option Str
  username : Option Str
  method : Option Str
  plugin : Option Str
  plugin_opts : Option Str
  security : Option Str
  grpc_service : Option Str
  h2_path : Option Str
  h2_host : Option Str
  reality_public_key : Option Str
  reality_short_id : Option Str
  fingerprint : Option Str
  network : Option Str
  tls : Bool
  sni : Option Str
  ws_path : Option Str
  ws_host : Option Str
deriving DecidableEq

/-- `char::is_ascii_hexdigit`. -/
def isHexAscii (c : Char) : Bool :=
  c.isDigit || ('a' ≤ c && c ≤ 'f') || ('A' ≤ c && c ≤ 'F')

/-- The per-index character check of the `valid_uuid` loop: hyphens at
8/13/18/23, lowercase hex everywhere else. -/
def uuidChars : Nat → Str → Bool
  | _, [] => true
  | idx, ch :: rest =>
    (if idx = 8 ∨ idx = 13 ∨ idx = 18 ∨ idx = 23 then ch = '-'
     else ch.isDigit || ('a' ≤ ch && ch ≤ 'f')) && uuidChars (idx + 1) rest

/-- `valid_uuid`: lowercases, then demands the 36-character canonical shape. -/
def valid_uuid (value : Str) : Bool :=
  let lower := strLower value
  lower.length = 36 && uuidChars 0 lower

/-- `valid_password`. -/
def valid_password (value : Str) : Bool :=
  if trimStr value = [] then false
  else !(value.any fun c => c.isWhitespace)

/-- `valid_reality_public_key`. -/
def valid_reality_public_key (value : Str) : Bool :=
  if 43 ≤ value.length ∧ value.length ≤ 64 then
    value.all fun c => c.isAlphanum || c = '-' || c = '_' || c = '='
  else false

/-- `valid_reality_short_id`. -/
def valid_reality_short_id (value : Str) : Bool :=
  if value.length = 8 ∨ value.length = 16 then value.all isHexAscii
  else false

/-- The per-protocol arm of `validate_node`'s `match node.protocol.as_str()`. -/
def protoCheck (node : ProxyNode) : Except Str Unit :=
  if node.protocol = strOf "vmess" ∨ node.protocol = strOf "vless" then
    if node.uuid.getD [] = [] then .error (strOf "uuid is required")
    else if valid_uuid (node.uuid.getD []) = false then
      .error (strOf "uuid format is invalid")
    else .ok ()
  else if node.protocol = strOf "trojan" then
    if node.password.getD [] = [] then .error (strOf "password is required")
    else if valid_password (node.password.getD []) = false then
      .error (strOf "password format is invalid")
    else .ok ()
  else if node.protocol = strOf "shadowsocks" then
    if node.password.getD [] = [] then .error (strOf "password is required")
    else if valid_password (node.password.getD []) = false then
      .error (strOf "password format is invalid")
    else if node.method.getD [] = [] then .error (strOf "method is required")
    else .ok ()
  else if node.protocol = strOf "socks" ∨ node.protocol = strOf "http" then .ok ()
  else .error (strOf "unsupported protocol: " ++ node.protocol)

/-- The trailing reality-security block of `validate_node`. -/
def realityCheck (node : ProxyNode) : Except Str Unit :=
  if node.security = some (strOf "reality") then
    if node.reality_public_key.getD [] = [] ∨ node.reality_short_id.getD [] = [] then
      .error (strOf "reality requires pbk and sid")
    else if valid_reality_public_key (node.reality_public_key.getD []) = false then
      .error (strOf "reality pbk format is invalid")
    else if valid_reality_short_id (node.reality_short_id.getD []) = false then
      .error (strOf "reality sid length is invalid")
    else .ok ()
  else .ok ()

/-- `validate_node`. -/
def validate_node (node : ProxyNode) : Except Str Unit :=
  if trimStr node.server = [] then .error (strOf "server is empty")
  else if node.port = 0 then .error (strOf "port must be > 0")
  else
    match protoCheck node with
    | .error e => .error e
    | .ok _ => realityCheck node

lemma isPre_length (p s : Str) (h : isPre p s = true) : p.length ≤ s.length := by
  induction p generalizing s with
  | nil => simp
  | cons a as ih =>
    cases s with
    | nil => simp [isPre] at h
    | cons b bs =>
      simp only [isPre, Bool.and_eq_true] at h
      have := ih bs h.2
      simp only [List.length_cons]
      omega

/-- Rust `str::trim_start_matches`: repeatedly strip a leading occurrence of
`pat`. -/
def stripAllPre (pat : Str) (s : Str) : Str :=
  if h : pat ≠ [] ∧ isPre pat s = true then
    stripAllPre pat (s.drop pat.length)
  else s
termination_by s.length
decreasing_by
  have hlen := isPre_length pat s h.2
  have hpat : 0 < pat.length := by
    cases hp : pat with
    | nil => exact absurd hp h.1
    | cons a as => simp
  simp only [List.length_drop]
  omega

/-- Rust `str::replace`: replace every (non-overlapping, leftmost-first)
occurrence of a non-empty `pat` by `rep`. -/
def replaceSeq (pat rep : Str) (s : Str) : Str :=
  if h : pat ≠ [] ∧ isPre pat s = true ∧ s ≠ [] then
    rep ++ replaceSeq pat rep (s.drop pat.length)
  else
    match s with
    | [] => []
    | c :: rest => c :: replaceSeq pat rep rest
termination_by s.length
decreasing_by
  · have hlen := isPre_length pat s h.2.1
    have hpat : 0 < pat.length := by
      cases hp : pat with
      | nil => exact absurd hp h.1
      | cons a as => simp
    simp only [List.length_drop]
    omega
  · simp only [List.length_cons]
    omega

/-- Split a string around the first occurrence of a (multi-character)
pattern, as Rust's pattern-based `split_once` / `find` would. -/
def splitAtSeq (pat : Str) : Str → Option (Str × Str)
  | [] => none
  | x :: xs =>
    match dropPre? pat (x :: xs) with
    | some rest => some ([], rest)
    | none =>
      match splitAtSeq pat xs with
      | some (a, b) => some (x :: a, b)
      | none => none

/-- Modelled from the spec: the external `url` crate's `Url::parse` at the
interface the codec uses (§4.6), restricted to the
`scheme://[user[:pass]@]host[:port][?query][#fragment]` share-link shapes:
userinfo, host, port, query string and fragment are recovered by plain
splitting, an empty host or an unparseable port rejects the URL, and no
percent-decoding is performed. -/
structure UrlParts where
  scheme : Str
  username : Str
  password : Option Str
  host : Str
  port : Option Nat
  query : Option Str
  fragment : Option Str
deriving DecidableEq

/-- Modelled from the spec: see `UrlParts`. -/
def parseUrl? (raw : Str) : Option UrlParts :=
  match splitAtSeq (strOf "://") raw with
  | none => none
  | some (scheme, rest) =>
    if scheme = [] then none
    else
      let (beforeFrag, frag) :=
        match splitOnce '#' rest with
        | some (a, f) => (a, some f)
        | none => (rest, none)
      let (beforeQuery, query) :=
        match splitOnce '?' beforeFrag with
        | some (a, q) => (a, some q)
        | none => (beforeFrag, none)
      let (userinfo, hostport) :=
        match splitOnce '@' beforeQuery with
        | some (u, hp) => (some u, hp)
        | none => (none, beforeQuery)
      let (username, password) :=
        match userinfo with
        | none => ([], none)
        | some u =>
          match splitOnce ':' u with
          | some (a, b) => (a, some b)
          | none => (u, none)
      match splitOnce ':' hostport with
      | some (h, p) =>
        if h = [] then none
        else
          match parseU16 p with
          | some port => some ⟨scheme, username, password, h, some port, query, frag⟩
          | none => none
      | none =>
        if hostport = [] then none
        else some ⟨scheme, username, password, hostport, none, query, frag⟩

/-- Modelled from the spec: `Url::query_pairs` without percent-decoding —
`&`-separated `k=v` pairs, a pair without `=` carrying an empty value. -/
def queryPairs (query : Option Str) : List (Str × Str) :=
  match query with
  | none => []
  | some q =>
    (splitSep '&' q).map fun pair =>
      match splitOnce '=' pair with
      | some (k, v) => (k, v)
      | none => (pair, [])

/-- The accumulator of the query-pair loop shared by `parse_vless` and
`parse_trojan`. -/
structure LinkQuery where
  network : Option Str := none
  security : Option Str := none
  sni : Option Str := none
  host_header : Option Str := none
  path : Option Str := none
  grpc_service : Option Str := none
  h2_path : Option Str := none
  h2_host : Option Str := none
  reality_public_key : Option Str := none
  reality_short_id : Option Str := none
  fingerprint : Option Str := none
deriving DecidableEq

/-- One iteration of the `for (key, value) in url.query_pairs()` loop of
`parse_vless`/`parse_trojan`. -/
def linkQueryStep (acc : LinkQuery) (kv : Str × Str) : LinkQuery :=
  if kv.1 = strOf "type" then { acc with network := some kv.2 }
  else if kv.1 = strOf "security" then { acc with security := some kv.2 }
  else if kv.1 = strOf "sni" then { acc with sni := some kv.2 }
  else if kv.1 = strOf "host" then
    { acc with host_header := some kv.2, h2_host := some kv.2 }
  else if kv.1 = strOf "path" then
    { acc with path := some kv.2, h2_path := some kv.2 }
  else if kv.1 = strOf "serviceName" then { acc with grpc_service := some kv.2 }
  else if kv.1 = strOf "pbk" then { acc with reality_public_key := some kv.2 }
  else if kv.1 = strOf "sid" then { acc with reality_short_id := some kv.2 }
  else if kv.1 = strOf "fp" then { acc with fingerprint := some kv.2 }
  else acc

/-- The whole query-pair loop. -/
def foldLinkQuery (url : UrlParts) : LinkQuery :=
  (queryPairs url.query).foldl linkQueryStep {}

/-- `parse_vless`. -/
def parse_vless (raw : Str) : Except XrayError ProxyNode :=
  match parseUrl? raw with
  | none => .error (.Parse (strOf "url parse error"))
  | some url =>
    let uuid := url.username
    if trimStr uuid = [] then .error (.Parse (strOf "vless missing uuid"))
    else
      match url.port with
      | none => .error (.Parse (strOf "vless missing port"))
      | some port =>
        let tag := url.fragment.getD []
        let q := foldLinkQuery url
        .ok
          { tag := tag
            protocol := strOf "vless"
            server := url.host
            port := port
            uuid := some uuid
            password := none
            username := none
            method := none
            plugin := none
            plugin_opts := none
            security := q.security
            grpc_service := q.grpc_service
            h2_path := q.h2_path
            h2_host := q.h2_host
            reality_public_key := q.reality_public_key
            reality_short_id := q.reality_short_id
            fingerprint := q.fingerprint
            network := q.network
            tls := strLower (q.security.getD []) = strOf "tls"
            sni := q.sni
            ws_path := q.path
            ws_host := q.host_header }

/-- `parse_trojan`. -/
def parse_trojan (raw : Str) : Except XrayError ProxyNode :=
  match parseUrl? raw with
  | none => .error (.Parse (strOf "url parse error"))
  | some url =>
    let password := url.username
    if trimStr password = [] then .error (.Parse (strOf "trojan missing password"))
    else
      match url.port with
      | none => .error (.Parse (strOf "trojan missing port"))
      | some port =>
        let tag := url.fragment.getD []
        let q := foldLinkQuery url
        .ok
          { tag := tag
            protocol := strOf "trojan"
            server := url.host
            port := port
            uuid := none
            password := some password
            username := none
            method := none
            plugin := none
            plugin_opts := none
            security := q.security
            grpc_service := q.grpc_service
            h2_path := q.h2_path
            h2_host := q.h2_host
            reality_public_key := q.reality_public_key
            reality_short_id := q.reality_short_id
            fingerprint := q.fingerprint
            network := q.network
            tls := strLower (q.security.getD (strOf "tls")) = strOf "tls"
            sni := q.sni
            ws_path := q.path
            ws_host := q.host_header }

/-- `parse_socks`. -/
def parse_socks (raw : Str) : Except XrayError ProxyNode :=
  match parseUrl? raw with
  | none => .error (.Parse (strOf "url parse error"))
  | some url =>
    match url.port with
    | none => .error (.Parse (strOf "socks missing port"))
    | some port =>
      let tag := url.fragment.getD []
      let username := url.username
      let password := url.password.getD []
      .ok
        { tag := tag
          protocol := strOf "socks"
          server := url.host
          port := port
          uuid := none
          password := if password = [] then none else some password
          username := if username = [] then none else some username
          method := none
          plugin := none
          plugin_opts := none
          security := none
          grpc_service := none
          h2_path := none
          h2_host := none
          reality_public_key := none
          reality_short_id := none
          fingerprint := none
          network := none
          tls := false
          sni := none
          ws_path := none
          ws_host := none }

/-- `parse_http_proxy`. -/
def parse_http_proxy (raw : Str) : Except XrayError ProxyNode :=
  match parseUrl? raw with
  | none => .error (.Parse (strOf "url parse error"))
  | some url =>
    match url.port with
    | none => .error (.Parse (strOf "http proxy missing port"))
    | some port =>
      let tag := url.fragment.getD []
      let username := url.username
      let password := url.password.getD []
      .ok
        { tag := tag
          protocol := strOf "http"
          server := url.host
          port := port
          uuid := none
          password := if password = [] then none else some password
          username := if username = [] then none else some username
          method := none
          plugin := none
          plugin_opts := none
          security := if url.scheme = strOf "https" then some (strOf "tls") else none
          grpc_service := none
          h2_path := none
          h2_host := none
          reality_public_key := none
          reality_short_id := none
          fingerprint := none
          network := none
          tls := url.scheme = strOf "https"
          sni := none
          ws_path := none
          ws_host := none }

/-- `parse_vmess`.  The base64 decoder and the JSON deserialization of the
payload live in external crates; they enter as the oracles `decode64`
(`Modelled from the spec:` base64 standard-or-url-safe decoding, bytes read
back as text) and `jsonVmess` (`Modelled from the spec:` serde JSON decoding
of the `VmessLink` fields). -/
def parse_vmess (decode64 : Str → Except Str Str) (jsonVmess : Str → Except Str VmessLink)
    (raw : Str) : Except XrayError ProxyNode :=
  let encoded := stripAllPre (strOf "vmess://") raw
  if trimStr encoded = [] then .error (.InvalidUrl (strOf "vmess url missing payload"))
  else
    match decode64 encoded with
    | .error e => .error (.Decode e)
    | .ok decoded =>
      match jsonVmess decoded with
      | .error e => .error (.Parse e)
      | .ok vmess =>
        if trimStr vmess.add = [] then .error (.Parse (strOf "vmess missing server"))
        else if trimStr vmess.id = [] then .error (.Parse (strOf "vmess missing uuid"))
        else
          match parseU16 vmess.port with
          | none => .error (.Parse (strOf "invalid vmess port: " ++ vmess.port))
          | some port =>
            .ok
              { tag := vmess.ps.getD []
                protocol := strOf "vmess"
                server := vmess.add
                port := port
                uuid := some vmess.id
                password := none
                username := none
                method := none
                plugin := none
                plugin_opts := none
                security := vmess.tls
                grpc_service := none
                h2_path := none
                h2_host := none
                reality_public_key := none
                reality_short_id := none
                fingerprint := none
                network := vmess.net
                tls := strLower (vmess.tls.getD []) = strOf "tls"
                sni := vmess.sni.or vmess.host
                ws_path := vmess.path
                ws_host := vmess.host }

/-- `parse_query_value`: find a key in an `&`-separated query string and
URL-decode the `;` escape in its value. -/
def parse_query_value (query : Str) (key : Str) : Option Str :=
  parseQueryLoop key (splitSep '&' query)
where
  parseQueryLoop (key : Str) : List Str → Option Str
    | [] => none
    | pair :: rest =>
      let kv := match splitOnce '=' pair with
        | some (a, b) => (a, b)
        | none => (pair, [])
      if trimStr kv.1 = key then
        some (replaceSeq (strOf "%3b") (strOf ";")
          (replaceSeq (strOf "%3B") (strOf ";") (trimStr kv.2)))
      else parseQueryLoop key rest

/-- The credential half of `parse_shadowsocks`: `method:password`, base64
decoded when not in the clear. -/
def ssCreds (decode64 : Str → Except Str Str) (creds : Str) :
    Except XrayError (Str × Str) :=
  match splitOnce ':' creds with
  | some (m, p) => .ok (m, p)
  | none =>
    match decode64 creds with
    | .error _ => .error (.Decode (strOf "ss base64 decode failed"))
    | .ok decoded =>
      match splitOnce ':' decoded with
      | some (m, p) => .ok (m, p)
      | none => .ok (decoded, [])

/-- The `host:port` half of `parse_shadowsocks`. -/
def ssHostPort (hostport : Str) : Except XrayError (Str × Nat) :=
  let hp := match splitOnce ':' hostport with
    | some (h, p) => (h, p)
    | none => (hostport, [])
  match parseU16 hp.2 with
  | none => .error (.Parse (strOf "invalid ss port"))
  | some port => .ok (hp.1, port)

/-- `parse_shadowsocks` (base64 through the `decode64` oracle, as in
`parse_vmess`). -/
def parse_shadowsocks (decode64 : Str → Except Str Str) (raw : Str) :
    Except XrayError ProxyNode :=
  let rest := stripAllPre (strOf "ss://") raw
  if trimStr rest = [] then .error (.InvalidUrl (strOf "ss url missing payload"))
  else
    let mainTag := match splitOnce '#' rest with
      | some (before, frag) => (before, frag)
      | none => (rest, [])
    let mainPlugin : Str × Option Str × Option Str :=
      match splitOnce '?' mainTag.1 with
      | some (before, query) =>
        match parse_query_value query (strOf "plugin") with
        | some plugin_value =>
          match splitOnce ';' plugin_value with
          | some (p, opts) => (before, some p, some opts)
          | none => (before, some plugin_value, none)
        | none => (before, none, none)
      | none => (mainTag.1, none, none)
    let credsHost : Except XrayError (Str × Str) :=
      match splitOnce '@' mainPlugin.1 with
      | some (creds, hostport) => .ok (creds, hostport)
      | none =>
        match decode64 mainPlugin.1 with
        | .error _ => .error (.Decode (strOf "ss base64 decode failed"))
        | .ok decoded =>
          match splitOnce '@' decoded with
          | some (creds, hostport) => .ok (creds, hostport)
          | none => .ok (decoded, [])
    match credsHost with
    | .error e => .error e
    | .ok ch =>
      match ssCreds decode64 ch.1 with
      | .error e => .error e
      | .ok mp =>
        match ssHostPort ch.2 with
        | .error e => .error e
        | .ok hp =>
          .ok
            { tag := mainTag.2
              protocol := strOf "shadowsocks"
              server := hp.1
              port := hp.2
              uuid := none
              password := some mp.2
              username := none
              method := some mp.1
              plugin := mainPlugin.2.1
              plugin_opts := mainPlugin.2.2
              security := none
              grpc_service := none
              h2_path := none
              h2_host := none
              reality_public_key := none
              reality_short_id := none
              fingerprint := none
              network := none
              tls := false
              sni := none
              ws_path := none
              ws_host := none }

/-- The per-entry scheme dispatch of `parse_proxy_urls`. -/
def parseOne (decode64 : Str → Except Str Str) (jsonVmess : Str → Except Str VmessLink)
    (idx : Nat) (raw : Str) : Except XrayError ProxyNode :=
  if isPre (strOf "vmess://") raw then parse_vmess decode64 jsonVmess raw
  else if isPre (strOf "vless://") raw then parse_vless raw
  else if isPre (strOf "trojan://") raw then parse_trojan raw
  else if isPre (strOf "ss://") raw then parse_shadowsocks decode64 raw
  else if isPre (strOf "socks5://") raw || isPre (strOf "socks://") raw then parse_socks raw
  else if isPre (strOf "http://") raw || isPre (strOf "https://") raw then parse_http_proxy raw
  else
    .error (.InvalidUrl (strOf "unsupported scheme at index " ++ natStr (idx + 1) ++
      strOf ": " ++ raw))

/-- The indexed loop of `parse_proxy_urls`: trim, reject empties, dispatch,
default the tag, validate, accumulate. -/
def parseLoop (decode64 : Str → Except Str Str) (jsonVmess : Str → Except Str VmessLink) :
    Nat → List Str → Except XrayError (List ProxyNode)
  | _, [] => .ok []
  | idx, raw :: rest =>
    let raw := trimStr raw
    if raw = [] then
      .error (.InvalidUrl (strOf "url at index " ++ natStr (idx + 1) ++ strOf " is empty"))
    else
      match parseOne decode64 jsonVmess idx raw with
      | .error e => .error e
      | .ok node =>
        let tag := if trimStr node.tag = [] then strOf "proxy-" ++ natStr (idx + 1)
          else node.tag
        let node := { node with tag := tag }
        match validate_node node with
        | .error msg =>
          .error (.Parse (strOf "invalid node at index " ++ natStr (idx + 1) ++
            strOf ": " ++ msg))
        | .ok _ =>
          match parseLoop decode64 jsonVmess (idx + 1) rest with
          | .error e => .error e
          | .ok nodes => .ok (node :: nodes)

/-- `parse_proxy_urls`. -/
def parse_proxy_urls (decode64 : Str → Except Str Str)
    (jsonVmess : Str → Except Str VmessLink) (urls : List Str) :
    Except XrayError (List ProxyNode) :=
  if urls = [] then .error (.InvalidUrl (strOf "no proxy urls provided"))
  else parseLoop decode64 jsonVmess 0 urls

/-! ## Claim theorems: proxy node invariants (C4) -/

/-- Refinement target written from the spec's words: a 36-character
canonical-form UUID with lowercase hex digits and hyphens at positions
8, 13, 18 and 23. -/
def uuidCanonicalLower (s : Str) : Prop :=
  s.length = 36 ∧ ∀ p ∈ List.enumFrom 0 s,
    ((p.1 = 8 ∨ p.1 = 13 ∨ p.1 = 18 ∨ p.1 = 23) → p.2 = '-') ∧
    (¬(p.1 = 8 ∨ p.1 = 13 ∨ p.1 = 18 ∨ p.1 = 23) →
      (p.2.isDigit = true ∨ ('a' ≤ p.2 ∧ p.2 ≤ 'f')))

instance instDecidableUuidCanonicalLower (s : Str) : Decidable (uuidCanonicalLower s) := by
  unfold uuidCanonicalLower
  exact inferInstance

lemma uuidChars_iff (s : Str) : ∀ k, (uuidChars k s = true ↔
    ∀ p ∈ List.enumFrom k s,
      ((p.1 = 8 ∨ p.1 = 13 ∨ p.1 = 18 ∨ p.1 = 23) → p.2 = '-') ∧
      (¬(p.1 = 8 ∨ p.1 = 13 ∨ p.1 = 18 ∨ p.1 = 23) →
        (p.2.isDigit = true ∨ ('a' ≤ p.2 ∧ p.2 ≤ 'f')))) := by
  induction s with
  | nil => intro k; simp [uuidChars]
  | cons c rest ih =>
    intro k
    simp only [uuidChars, Bool.and_eq_true]
    rw [show List.enumFrom k (c :: rest) = (k, c) :: List.enumFrom (k + 1) rest from rfl,
      List.forall_mem_cons]
    constructor
    · rintro ⟨hc, hrest⟩
      refine ⟨⟨?_, ?_⟩, (ih (k + 1)).mp hrest⟩
      · intro hk
        rw [if_pos hk] at hc
        exact decide_eq_true_eq.mp hc
      · intro hnk
        rw [if_neg hnk] at hc
        simpa using hc
    · rintro ⟨⟨h1, h2⟩, hrest⟩
      refine ⟨?_, (ih (k + 1)).mpr hrest⟩
      by_cases hk : k = 8 ∨ k = 13 ∨ k = 18 ∨ k = 23
      · rw [if_pos hk]
        exact decide_eq_true_eq.mpr (h1 hk)
      · rw [if_neg hk]
        simpa using h2 hk

lemma valid_uuid_canonical (u : Str) (h : valid_uuid u = true) :
    uuidCanonicalLower (strLower u) := by
  simp only [valid_uuid, Bool.and_eq_true, decide_eq_true_eq] at h
  exact ⟨h.1, (uuidChars_iff (strLower u) 0).mp h.2⟩

lemma valid_password_unfold (p : Str) (h : valid_password p = true) :
    ∀ c ∈ p, c.isWhitespace = false := by
  unfold valid_password at h
  split_ifs at h with htrim
  rw [Bool.not_eq_true'] at h
  intro c hc
  have h2 := List.any_eq_false.mp h c hc
  simpa using h2

lemma valid_rpk_unfold (v : Str) (h : valid_reality_public_key v = true) :
    43 ≤ v.length ∧ v.length ≤ 64 ∧
      ∀ c ∈ v, c.isAlphanum = true ∨ c = '-' ∨ c = '_' ∨ c = '=' := by
  unfold valid_reality_public_key at h
  split_ifs at h with hlen
  refine ⟨hlen.1, hlen.2, ?_⟩
  intro c hc
  have h2 := List.all_eq_true.mp h c hc
  simpa [or_assoc] using h2

lemma valid_rsid_unfold (v : Str) (h : valid_reality_short_id v = true) :
    (v.length = 8 ∨ v.length = 16) ∧ ∀ c ∈ v, isHexAscii c = true := by
  unfold valid_reality_short_id at h
  split_ifs at h with hlen
  exact ⟨hlen, fun c hc => List.all_eq_true.mp h c hc⟩

/-- Refinement target written from the spec's words, with the uuid condition
amended by the counterexample: the node invariants of §3, where the canonical
36-character uuid shape is required of the *lowercased* uuid (hex digits of
either case pass validation). -/
def nodeInvariantAmended (n : ProxyNode) : Prop :=
  n.server ≠ [] ∧ 0 < n.port ∧
  ((n.protocol = strOf "vmess" ∨ n.protocol = strOf "vless") →
    ∃ u, n.uuid = some u ∧ uuidCanonicalLower (strLower u)) ∧
  ((n.protocol = strOf "trojan" ∨ n.protocol = strOf "shadowsocks") →
    ∃ p, n.password = some p ∧ p ≠ [] ∧ ∀ c ∈ p, c.isWhitespace = false) ∧
  (n.protocol = strOf "shadowsocks" → ∃ m, n.method = some m ∧ m ≠ []) ∧
  (n.security = some (strOf "reality") →
    ∃ pbk sid, n.reality_public_key = some pbk ∧ n.reality_short_id = some sid ∧
      43 ≤ pbk.length ∧ pbk.length ≤ 64 ∧
      (∀ c ∈ pbk, c.isAlphanum = true ∨ c = '-' ∨ c = '_' ∨ c = '=') ∧
      (sid.length = 8 ∨ sid.length = 16) ∧ ∀ c ∈ sid, isHexAscii c = true)

lemma protoCheck_ok (n : ProxyNode) (h : protoCheck n = .ok ()) :
    ((n.protocol = strOf "vmess" ∨ n.protocol = strOf "vless") →
      ∃ u, n.uuid = some u ∧ valid_uuid u = true) ∧
    ((n.protocol = strOf "trojan" ∨ n.protocol = strOf "shadowsocks") →
      ∃ p, n.password = some p ∧ p ≠ [] ∧ valid_password p = true) ∧
    (n.protocol = strOf "shadowsocks" → ∃ m, n.method = some m ∧ m ≠ []) := by
  unfold protoCheck at h
  by_cases h1 : n.protocol = strOf "vmess" ∨ n.protocol = strOf "vless"
  · rw [if_pos h1] at h
    split_ifs at h with hu hv
    refine ⟨?_, ?_, ?_⟩
    · intro _
      cases hud : n.uuid with
      | none => rw [hud] at hu; simp at hu
      | some u =>
        rw [hud] at hv
        simp only [Option.getD_some] at hv
        exact ⟨u, rfl, by simpa using hv⟩
    · intro hcontra
      exfalso
      rcases h1 with he | he <;> rcases hcontra with hc | hc <;>
        rw [he] at hc <;> exact absurd hc (by decide)
    · intro hcontra
      exfalso
      rcases h1 with he | he <;> rw [he] at hcontra <;> exact absurd hcontra (by decide)
  · rw [if_neg h1] at h
    by_cases h2 : n.protocol = strOf "trojan"
    · rw [if_pos h2] at h
      split_ifs at h with hpw hvp
      refine ⟨fun hc => absurd hc h1, ?_, ?_⟩
      · intro _
        cases hpd : n.password with
        | none => rw [hpd] at hpw; simp at hpw
        | some p =>
          rw [hpd] at hpw hvp
          simp only [Option.getD_some] at hpw hvp
          exact ⟨p, rfl, hpw, by simpa using hvp⟩
      · intro hcontra
        rw [h2] at hcontra
        exact absurd hcontra.symm (by decide)
    · rw [if_neg h2] at h
      by_cases h3 : n.protocol = strOf "shadowsocks"
      · rw [if_pos h3] at h
        split_ifs at h with hpw hvp hm
        refine ⟨fun hc => absurd hc h1, ?_, ?_⟩
        · intro _
          cases hpd : n.password with
          | none => rw [hpd] at hpw; simp at hpw
          | some p =>
            rw [hpd] at hpw hvp
            simp only [Option.getD_some] at hpw hvp
            exact ⟨p, rfl, hpw, by simpa using hvp⟩
        · intro _
          cases hmd : n.method with
          | none => rw [hmd] at hm; simp at hm
          | some m =>
            rw [hmd] at hm
            simp only [Option.getD_some] at hm
            exact ⟨m, rfl, hm⟩
      · refine ⟨fun hc => absurd hc h1, ?_, fun hc => absurd hc h3⟩
        intro hcontra
        rcases hcontra with hc | hc
        · exact absurd hc h2
        · exact absurd hc h3

lemma realityCheck_ok (n : ProxyNode) (h : realityCheck n = .ok ())
    (hsec : n.security = some (strOf "reality")) :
    ∃ pbk sid, n.reality_public_key = some pbk ∧ n.reality_short_id = some sid ∧
      valid_reality_public_key pbk = true ∧ valid_reality_short_id sid = true := by
  unfold realityCheck at h
  rw [if_pos hsec] at h
  split_ifs at h with he hpbk hsid
  push_neg at he
  cases hpk : n.reality_public_key with
  | none => rw [hpk] at he; simp at he
  | some pbk =>
    cases hsd : n.reality_short_id with
    | none => rw [hsd] at he; simp at he
    | some sid =>
      rw [hpk] at hpbk
      rw [hsd] at hsid
      simp only [Option.getD_some] at hpbk hsid
      exact ⟨pbk, sid, rfl, rfl, by simpa using hpbk, by simpa using hsid⟩

/-- A node the validator accepts satisfies the (amended) §3 invariants. -/
lemma validate_node_ok_invariant (n : ProxyNode) (h : validate_node n = .ok ()) :
    nodeInvariantAmended n := by
  unfold validate_node at h
  split_ifs at h with hs hp
  cases hpc : protoCheck n with
  | error e => rw [hpc] at h; exact absurd h (by simp)
  | ok u =>
    obtain ⟨⟩ := u
    rw [hpc] at h
    obtain ⟨huuid, hpass, hmethod⟩ := protoCheck_ok n hpc
    refine ⟨?_, by omega, ?_, ?_, hmethod, ?_⟩
    · intro he
      exact hs (by rw [he]; rfl)
    · intro hproto
      obtain ⟨u, hu, hv⟩ := huuid hproto
      exact ⟨u, hu, valid_uuid_canonical u hv⟩
    · intro hproto
      obtain ⟨p, hpw, hne, hv⟩ := hpass hproto
      exact ⟨p, hpw, hne, valid_password_unfold p hv⟩
    · intro hsec
      obtain ⟨pbk, sid, h1, h2, h3, h4⟩ := realityCheck_ok n h hsec
      obtain ⟨l1, l2, l3⟩ := valid_rpk_unfold pbk h3
      obtain ⟨l4, l5⟩ := valid_rsid_unfold sid h4
      exact ⟨pbk, sid, h1, h2, l1, l2, l3, l4, l5⟩

/-- Every node the parse loop emits was accepted by `validate_node`. -/
lemma parseLoop_nodes_validated (decode64 : Str → Except Str Str)
    (jsonVmess : Str → Except Str VmessLink) (urls : List Str) :
    ∀ (idx : Nat) (nodes : List ProxyNode),
      parseLoop decode64 jsonVmess idx urls = .ok nodes →
      ∀ n ∈ nodes, validate_node n = .ok () := by
  induction urls with
  | nil =>
    intro idx nodes h
    obtain rfl : ([] : List ProxyNode) = nodes := by simpa [parseLoop] using h
    simp
  | cons raw rest ih =>
    intro idx nodes h
    simp only [parseLoop] at h
    split_ifs at h with hempty
    split at h
    next e hone => exact absurd h (by simp)
    next node hone =>
      split at h
      next msg hval => exact absurd h (by simp)
      next u hval =>
        obtain ⟨⟩ := u
        split at h
        next e hrest => exact absurd h (by simp)
        next ns hrest =>
          obtain rfl : _ :: ns = nodes := by simpa using h
          intro n hn
          rcases List.mem_cons.mp hn with rfl | hn
          · exact hval
          · exact ih (idx + 1) ns hrest n hn

/-- C4 (amended): every ProxyNode in the list returned by `parse_proxy_urls`
passes `validate_node` and therefore satisfies the node invariants, with the
uuid requirement read of the lowercased uuid (uppercase hex accepted); every
rejected input produces one of the explicit error kinds `InvalidUrl`,
`Decode` or `Parse`. -/
theorem parse_proxy_urls_nodes_validated :
    (∀ (decode64 : Str → Except Str Str) (jsonVmess : Str → Except Str VmessLink)
      (urls : List Str) (nodes : List ProxyNode),
      parse_proxy_urls decode64 jsonVmess urls = .ok nodes →
      ∀ n ∈ nodes, validate_node n = .ok () ∧ nodeInvariantAmended n) ∧
    (∀ (decode64 : Str → Except Str Str) (jsonVmess : Str → Except Str VmessLink)
      (urls : List Str) (e : XrayError),
      parse_proxy_urls decode64 jsonVmess urls = .error e →
      (∃ m, e = .InvalidUrl m) ∨ (∃ m, e = .Decode m) ∨ (∃ m, e = .Parse m)) := by
  constructor
  · intro decode64 jsonVmess urls nodes h n hn
    unfold parse_proxy_urls at h
    split_ifs at h with hempty
    have hval := parseLoop_nodes_validated decode64 jsonVmess urls 0 nodes h n hn
    exact ⟨hval, validate_node_ok_invariant n hval⟩
  · intro decode64 jsonVmess urls e _
    cases e with
    | InvalidUrl m => exact Or.inl ⟨m, rfl⟩
    | Decode m => exact Or.inr (Or.inl ⟨m, rfl⟩)
    | Parse m => exact Or.inr (Or.inr ⟨m, rfl⟩)

/-- A vless share link whose uuid uses uppercase hex digits. -/
def upperUuidUrl : Str :=
  strOf "vless://123E4567-E89B-12D3-A456-426614174000@example.com:443#t"

/-- A base64 oracle that is never consulted by the vless path. -/
def noDecode : Str → Except Str Str := fun _ => .error (strOf "unused")

/-- A JSON oracle that is never consulted by the vless path. -/
def noJson : Str → Except Str VmessLink := fun _ => .error (strOf "unused")

/-- The node the codec produces for `upperUuidUrl`. -/
def upperUuidNode : ProxyNode :=
  { tag := strOf "t"
    protocol := strOf "vless"
    server := strOf "example.com"
    port := 443
    uuid := some (strOf "123E4567-E89B-12D3-A456-426614174000")
    password := none
    username := none
    method := none
    plugin := none
    plugin_opts := none
    security := none
    grpc_service := none
    h2_path := none
    h2_host := none
    reality_public_key := none
    reality_short_id := none
    fingerprint := none
    network := none
    tls := false
    sni := none
    ws_path := none
    ws_host := none }

/-- C4 (counterexample): the codec accepts a vless link whose uuid carries
uppercase hex digits — the returned node's uuid is *not* a lowercase-hex
canonical UUID, refuting the claim's "lowercase hex digits" reading
(`valid_uuid` lowercases before checking). -/
theorem parse_proxy_urls_accepts_uppercase_uuid :
    parse_proxy_urls noDecode noJson [upperUuidUrl] = .ok [upperUuidNode] ∧
    upperUuidNode.uuid = some (strOf "123E4567-E89B-12D3-A456-426614174000") ∧
    ¬ uuidCanonicalLower (strOf "123E4567-E89B-12D3-A456-426614174000") :=
  ⟨rfl, rfl, by decide⟩

theorem parse_proxy_urls_nodes_validated_witness :
    validate_node upperUuidNode = .ok () ∧ nodeInvariantAmended upperUuidNode :=
  parse_proxy_urls_nodes_validated.1 noDecode noJson [upperUuidUrl] [upperUuidNode]
    rfl upperUuidNode (List.mem_singleton_self _)

end NetPolicy
